import Mathlib

/-!
Verification of the SynapseFlow hackathon-management server.

This file gives a shallow embedding of the parts of the codebase that the
properties below talk about: the Submission model (judge evaluations and
score aggregation), the Team model (invitation lifecycle and member
removal) together with its controller endpoints, the Project model
(status enum, submission date) with the submit-project endpoint, and the
login handler.  Mongoose documents become Lean structures, schema methods
become pure functions, a thrown controller error becomes an explicit
error value returned next to the (unchanged) in-memory document, and
saving a document runs the model's pre-save middleware.
-/

namespace SynapseFlow

/-! ## Submission model (judging and scoring) -/

/-- Submission status enum from the submission schema:
enum: ['draft', 'submitted', 'under_review', 'accepted', 'rejected',
'winner', 'runner_up', 'honorable_mention']. -/
inductive SubStatus where
  | draft
  | submitted
  | under_review
  | accepted
  | rejected
  | winner
  | runner_up
  | honorable_mention
deriving DecidableEq

/-- The five judging criteria of the scores sub-document (each 0-10). -/
structure JudgeScores where
  innovation : ℚ
  execution : ℚ
  presentation : ℚ
  impact : ℚ
  completeness : ℚ
deriving DecidableEq

/-- One entry of the judges array of a submission. -/
structure JudgeEval where
  judgeId : Nat
  scores : JudgeScores
  comments : String
  feedback : String
  judgedAt : Nat
deriving DecidableEq

/-- The fields of a Submission document used by judging, scoring and the
leaderboard. -/
structure Submission where
  hackathonId : Nat
  status : SubStatus
  judges : List JudgeEval
  scores : JudgeScores
  totalScore : ℚ
  averageScore : ℚ
  submittedAt : Option Nat
  reviewedAt : Option Nat
deriving DecidableEq

/-- submissionSchema.methods.calculateScores: sum every judge's score per
criterion, divide by the number of judges, then totalScore is the sum of
the five per-criterion averages and averageScore divides it by the number
of score values (five). -/
def calculateScores (s : Submission) : Submission :=
  if s.judges.length = 0 then s
  else
    let n : ℚ := (s.judges.length : ℚ)
    let newScores : JudgeScores :=
      { innovation := ((s.judges.map (fun j => j.scores.innovation)).sum) / n
        execution := ((s.judges.map (fun j => j.scores.execution)).sum) / n
        presentation := ((s.judges.map (fun j => j.scores.presentation)).sum) / n
        impact := ((s.judges.map (fun j => j.scores.impact)).sum) / n
        completeness := ((s.judges.map (fun j => j.scores.completeness)).sum) / n }
    let scoreValues : List ℚ :=
      [newScores.innovation, newScores.execution, newScores.presentation,
       newScores.impact, newScores.completeness]
    let total : ℚ := scoreValues.foldl (fun sum score => sum + score) 0
    { s with
        scores := newScores
        totalScore := total
        averageScore := total / (scoreValues.length : ℚ) }

/-- submissionSchema.pre('save'): stamp submittedAt on the first save that
modified status to 'submitted', and recompute scores when the judges list
was modified and is non-empty. -/
def submissionPreSave (s : Submission) (statusModified judgesModified : Bool)
    (now : Nat) : Submission :=
  let s1 :=
    if statusModified = true ∧ s.status = SubStatus.submitted ∧ s.submittedAt = none
    then { s with submittedAt := some now } else s
  if judgesModified = true ∧ 0 < s1.judges.length then calculateScores s1 else s1

/-- The judges-array update inside addJudgeEvaluation: findIndex on
judgeId, overwrite the entry in place when found, push otherwise. -/
def updJudges (j : JudgeEval) : List JudgeEval → List JudgeEval
  | [] => [j]
  | e :: es => if e.judgeId = j.judgeId then j :: es else e :: updJudges j es

/-- submissionSchema.methods.addJudgeEvaluation: upsert the judge's entry,
recalculate scores, flip 'submitted' (or keep 'under_review') to
'under_review' stamping reviewedAt, then save (running the pre-save
middleware with the judges path modified). -/
def addJudgeEvaluation (s : Submission) (judgeId : Nat) (scores : JudgeScores)
    (comments feedback : String) (now : Nat) : Submission :=
  let j : JudgeEval :=
    { judgeId := judgeId, scores := scores, comments := comments,
      feedback := feedback, judgedAt := now }
  let s1 := { s with judges := updJudges j s.judges }
  let s2 := calculateScores s1
  let s3 :=
    if s2.status = SubStatus.submitted ∨ s2.status = SubStatus.under_review
    then { s2 with status := SubStatus.under_review, reviewedAt := some now }
    else s2
  submissionPreSave s3 (decide (s3.status ≠ s.status)) true now

/-- One judge-evaluation request, for reasoning about sequences of calls. -/
structure EvalEvent where
  judgeId : Nat
  scores : JudgeScores
  comments : String
  feedback : String
  time : Nat

/-- Apply a sequence of addJudgeEvaluation calls in order. -/
def applyEvaluations (s : Submission) (evs : List EvalEvent) : Submission :=
  evs.foldl
    (fun acc e => addJudgeEvaluation acc e.judgeId e.scores e.comments e.feedback e.time) s

/-- The arithmetic mean of one criterion over all judges of a submission. -/
def criterionMean (s : Submission) (f : JudgeScores → ℚ) : ℚ :=
  ((s.judges.map (fun j => f j.scores)).sum) / ((s.judges.length : ℚ))

/-- The two-judge example submission from the spec:
J1 = (8,7,9,6,8) and J2 = (6,9,7,8,7). -/
def exSubmission : Submission :=
  { hackathonId := 1
    status := SubStatus.submitted
    judges :=
      [ { judgeId := 11,
          scores := { innovation := 8, execution := 7, presentation := 9,
                      impact := 6, completeness := 8 },
          comments := "", feedback := "", judgedAt := 5 },
        { judgeId := 12,
          scores := { innovation := 6, execution := 9, presentation := 7,
                      impact := 8, completeness := 7 },
          comments := "", feedback := "", judgedAt := 6 } ]
    scores := { innovation := 0, execution := 0, presentation := 0,
                impact := 0, completeness := 0 }
    totalScore := 0
    averageScore := 0
    submittedAt := some 4
    reviewedAt := none }

end SynapseFlow

namespace SynapseFlow

/-! ### Auxiliary facts about score recomputation -/

lemma calculateScores_status (s : Submission) : (calculateScores s).status = s.status := by
  unfold calculateScores
  split <;> rfl

lemma calculateScores_judges (s : Submission) : (calculateScores s).judges = s.judges := by
  unfold calculateScores
  split <;> rfl

lemma submissionPreSave_status (s : Submission) (sm jm : Bool) (now : Nat) :
    (submissionPreSave s sm jm now).status = s.status := by
  simp only [submissionPreSave]
  split <;> split <;> simp [calculateScores_status]

lemma submissionPreSave_judges (s : Submission) (sm jm : Bool) (now : Nat) :
    (submissionPreSave s sm jm now).judges = s.judges := by
  simp only [submissionPreSave]
  split <;> split <;> simp [calculateScores_judges]

end SynapseFlow

namespace SynapseFlow

/-- C1: recomputing scores sets each per-criterion score to the arithmetic
mean of that criterion across all judges and averageScore to the mean of
the five per-criterion means; on judges J1 = (8,7,9,6,8) and
J2 = (6,9,7,8,7) the per-criterion means are (7,8,8,7,7.5) and the
average score is 7.5. -/
theorem calculateScores_mean_of_means (s : Submission) (h : s.judges ≠ []) :
    (calculateScores s).scores.innovation = criterionMean s (fun x => x.innovation)
    ∧ (calculateScores s).scores.execution = criterionMean s (fun x => x.execution)
    ∧ (calculateScores s).scores.presentation = criterionMean s (fun x => x.presentation)
    ∧ (calculateScores s).scores.impact = criterionMean s (fun x => x.impact)
    ∧ (calculateScores s).scores.completeness = criterionMean s (fun x => x.completeness)
    ∧ (calculateScores s).averageScore =
        ((calculateScores s).scores.innovation + (calculateScores s).scores.execution
          + (calculateScores s).scores.presentation + (calculateScores s).scores.impact
          + (calculateScores s).scores.completeness) / 5
    ∧ (calculateScores exSubmission).scores.innovation = 7
    ∧ (calculateScores exSubmission).scores.execution = 8
    ∧ (calculateScores exSubmission).scores.presentation = 8
    ∧ (calculateScores exSubmission).scores.impact = 7
    ∧ (calculateScores exSubmission).scores.completeness = 15/2
    ∧ (calculateScores exSubmission).averageScore = 15/2 := by
  have hl : s.judges.length ≠ 0 := by simpa using h
  refine ⟨?_, ?_, ?_, ?_, ?_, ?_, ?_, ?_, ?_, ?_, ?_, ?_⟩
  all_goals norm_num [calculateScores, criterionMean, exSubmission, hl]

/-- Witness for C1 at the two-judge example submission. -/
theorem calculateScores_mean_witness :
    exSubmission.judges ≠ [] ∧ (calculateScores exSubmission).averageScore = 15/2 := by
  refine ⟨by simp [exSubmission], ?_⟩
  exact (calculateScores_mean_of_means exSubmission
    (by simp [exSubmission])).2.2.2.2.2.2.2.2.2.2.2

/-- C6: recording a judge evaluation on a submission that is 'submitted'
moves it to 'under_review', and an evaluation on a submission already
'under_review' keeps it at 'under_review' (never any other status). -/
theorem addJudgeEvaluation_under_review (s : Submission) (jid : Nat) (sc : JudgeScores)
    (c fb : String) (now : Nat)
    (h : s.status = SubStatus.submitted ∨ s.status = SubStatus.under_review) :
    (addJudgeEvaluation s jid sc c fb now).status = SubStatus.under_review := by
  rcases h with h | h <;>
    simp [addJudgeEvaluation, submissionPreSave_status, calculateScores_status, h]

/-- Witness for C6 on the example submitted submission. -/
theorem addJudgeEvaluation_under_review_witness :
    (exSubmission.status = SubStatus.submitted ∨ exSubmission.status = SubStatus.under_review)
    ∧ (addJudgeEvaluation exSubmission 13 ⟨5, 5, 5, 5, 5⟩ "" "" 9).status
        = SubStatus.under_review := by
  refine ⟨Or.inl rfl, ?_⟩
  exact addJudgeEvaluation_under_review exSubmission 13 ⟨5, 5, 5, 5, 5⟩ "" "" 9 (Or.inl rfl)

lemma updJudges_judgeId_mem (j : JudgeEval) (l : List JudgeEval) (x : Nat) :
    x ∈ (updJudges j l).map JudgeEval.judgeId → x = j.judgeId ∨ x ∈ l.map JudgeEval.judgeId := by
  induction l with
  | nil =>
    intro hx
    simp only [updJudges, List.map_cons, List.map_nil, List.mem_singleton] at hx
    exact Or.inl hx
  | cons e es ih =>
    intro hx
    by_cases he : e.judgeId = j.judgeId
    · rw [updJudges, if_pos he] at hx
      rw [List.map_cons, List.mem_cons] at hx
      rcases hx with h | h
      · exact Or.inl h
      · exact Or.inr (List.mem_cons_of_mem _ h)
    · rw [updJudges, if_neg he] at hx
      rw [List.map_cons, List.mem_cons] at hx
      rcases hx with h | h
      · exact Or.inr (by rw [List.map_cons, List.mem_cons]; exact Or.inl h)
      · rcases ih h with h1 | h1
        · exact Or.inl h1
        · exact Or.inr (List.mem_cons_of_mem _ h1)

lemma updJudges_nodup (j : JudgeEval) (l : List JudgeEval)
    (h : (l.map JudgeEval.judgeId).Nodup) :
    ((updJudges j l).map JudgeEval.judgeId).Nodup := by
  induction l with
  | nil => simp [updJudges]
  | cons e es ih =>
    rw [List.map_cons, List.nodup_cons] at h
    by_cases he : e.judgeId = j.judgeId
    · rw [updJudges, if_pos he, List.map_cons, List.nodup_cons]
      exact ⟨he ▸ h.1, h.2⟩
    · rw [updJudges, if_neg he, List.map_cons, List.nodup_cons]
      refine ⟨?_, ih h.2⟩
      intro hmem
      rcases updJudges_judgeId_mem j es e.judgeId hmem with h1 | h1
      · exact he h1
      · exact h.1 h1

lemma updJudges_length (j : JudgeEval) (l : List JudgeEval)
    (h : ∃ e ∈ l, e.judgeId = j.judgeId) :
    (updJudges j l).length = l.length := by
  induction l with
  | nil => simp at h
  | cons e es ih =>
    by_cases he : e.judgeId = j.judgeId
    · rw [updJudges, if_pos he, List.length_cons, List.length_cons]
    · rcases h with ⟨x, hx, hxid⟩
      rcases List.mem_cons.mp hx with rfl | hx2
      · exact absurd hxid he
      · rw [updJudges, if_neg he, List.length_cons, List.length_cons,
          ih ⟨x, hx2, hxid⟩]

lemma addJudgeEvaluation_judges_eq (s : Submission) (jid : Nat) (sc : JudgeScores)
    (c fb : String) (now : Nat) :
    (addJudgeEvaluation s jid sc c fb now).judges
      = updJudges ⟨jid, sc, c, fb, now⟩ s.judges := by
  simp only [addJudgeEvaluation, submissionPreSave_judges]
  split <;> simp [calculateScores_judges]

lemma applyEvaluations_nodup : ∀ (evs : List EvalEvent) (s : Submission),
    (s.judges.map JudgeEval.judgeId).Nodup →
    ((applyEvaluations s evs).judges.map JudgeEval.judgeId).Nodup := by
  intro evs
  induction evs with
  | nil => intro s h; simpa [applyEvaluations] using h
  | cons e es ih =>
    intro s h
    have hstep : applyEvaluations s (e :: es)
        = applyEvaluations
            (addJudgeEvaluation s e.judgeId e.scores e.comments e.feedback e.time) es := rfl
    rw [hstep]
    apply ih
    rw [addJudgeEvaluation_judges_eq]
    exact updJudges_nodup _ _ h

/-- C9: an evaluation by a judge who already has an entry replaces that
entry in place (the judges list keeps its length, so the averaging
divisor is not inflated), and any sequence of addJudgeEvaluation calls
preserves the absence of duplicate judgeIds in the judges list. -/
theorem addJudgeEvaluation_no_duplicate_judges (s : Submission)
    (hnd : (s.judges.map JudgeEval.judgeId).Nodup) :
    (∀ evs : List EvalEvent,
        ((applyEvaluations s evs).judges.map JudgeEval.judgeId).Nodup)
    ∧ (∀ (jid : Nat) (sc : JudgeScores) (c fb : String) (now : Nat),
        (∃ e ∈ s.judges, e.judgeId = jid) →
        (addJudgeEvaluation s jid sc c fb now).judges.length = s.judges.length) := by
  constructor
  · intro evs
    exact applyEvaluations_nodup evs s hnd
  · intro jid sc c fb now hex
    rw [addJudgeEvaluation_judges_eq]
    exact updJudges_length _ _ hex

/-- A concrete judge-evaluation event re-scoring judge 11. -/
def exEvalEvent : EvalEvent := ⟨11, ⟨1, 2, 3, 4, 5⟩, "", "", 9⟩

/-- Witness for C9: re-scoring judge 11 on the example submission keeps
the judges list duplicate-free and of unchanged length. -/
theorem addJudgeEvaluation_no_duplicate_judges_witness :
    ((applyEvaluations exSubmission [exEvalEvent]).judges.map JudgeEval.judgeId).Nodup
    ∧ (addJudgeEvaluation exSubmission 11 exEvalEvent.scores "" "" 9).judges.length
        = exSubmission.judges.length := by
  have h := addJudgeEvaluation_no_duplicate_judges exSubmission (by simp [exSubmission])
  exact ⟨h.1 [exEvalEvent], h.2 11 exEvalEvent.scores "" "" 9 (by simp [exSubmission])⟩

end SynapseFlow

namespace SynapseFlow

/-! ## Team model (invitation lifecycle) -/

/-- Per-member invitation status enum: ['pending', 'accepted', 'rejected']. -/
inductive InvStatus where
  | pending
  | accepted
  | rejected
deriving DecidableEq

/-- One slot of the team's members array. -/
structure TeamMember where
  userId : Nat
  role : String
  isLeader : Bool
  joinedAt : Option Nat
  invitationStatus : InvStatus
deriving DecidableEq

/-- The fields of a Team document used by the invitation lifecycle. -/
structure Team where
  members : List TeamMember
  maxMembers : Nat
  isLookingForMembers : Bool
  totalInvitesSent : Nat
deriving DecidableEq

/-- Number of members whose invitationStatus is 'accepted'. -/
def acceptedCount (t : Team) : Nat :=
  (t.members.filter (fun m => decide (m.invitationStatus = InvStatus.accepted))).length

/-- teamSchema.methods.isFull: accepted members ≥ maxMembers. -/
def Team.isFull (t : Team) : Bool :=
  decide (acceptedCount t ≥ t.maxMembers)

/-- teamSchema.methods.isMember: some member has this userId with an
accepted invitation. -/
def Team.isMember (t : Team) (userId : Nat) : Bool :=
  t.members.any (fun m =>
    decide (m.userId = userId ∧ m.invitationStatus = InvStatus.accepted))

/-- teamSchema.methods.isLeader: some member has this userId with the
leader flag. -/
def Team.isLeader (t : Team) (userId : Nat) : Bool :=
  t.members.any (fun m => decide (m.userId = userId) && m.isLeader)

/-- Number of members with the leader flag and an accepted invitation,
as filtered by removeMember and the remove-member controller. -/
def acceptedLeadersCount (t : Team) : Nat :=
  (t.members.filter (fun m =>
    m.isLeader && decide (m.invitationStatus = InvStatus.accepted))).length

/-- teamSchema.pre('save'): recompute isLookingForMembers from the current
accepted count versus maxMembers (slug, chatRoomId and lastActive
bookkeeping do not touch the membership fields modelled here). -/
def teamPreSave (t : Team) : Team :=
  { t with isLookingForMembers := decide (acceptedCount t < t.maxMembers) }

/-- Errors thrown by the team schema methods. -/
inductive TeamError where
  | teamIsFull
  | memberNotFound
  | lastLeader
deriving DecidableEq

/-- The user-facing message of each schema-method error. -/
def TeamError.message : TeamError → String
  | .teamIsFull => "Team is full"
  | .memberNotFound => "Member not found in team"
  | .lastLeader => "Cannot remove the last team leader"

/-- The members-array update inside inviteMember: find the first slot with
this userId; if it exists and is 'rejected' reset it to 'pending' with the
new role (pending or accepted slots are left alone), otherwise push a new
pending non-leader slot. -/
def inviteUpd (userId : Nat) (role : String) : List TeamMember → List TeamMember
  | [] => [⟨userId, role, false, none, InvStatus.pending⟩]
  | m :: ms =>
    if m.userId = userId then
      (if m.invitationStatus = InvStatus.rejected
       then { m with invitationStatus := InvStatus.pending, role := role }
       else m) :: ms
    else m :: inviteUpd userId role ms

/-- teamSchema.methods.inviteMember: throw 'Team is full' when full before
touching anything, otherwise update the members array, bump
totalInvitesSent and save.  The returned team is the in-memory document;
the error component is the thrown error, if any. -/
def inviteMember (t : Team) (userId : Nat) (role : String) : Team × Option TeamError :=
  if t.isFull then (t, some TeamError.teamIsFull)
  else
    (teamPreSave { t with
        members := inviteUpd userId role t.members,
        totalInvitesSent := t.totalInvitesSent + 1 },
     none)

/-- findIndex plus splice(index, 1) of removeMember: locate the first slot
with this userId and return it together with the list with that slot
deleted. -/
def removeSplit (userId : Nat) : List TeamMember → Option (TeamMember × List TeamMember)
  | [] => none
  | m :: ms =>
    if m.userId = userId then some (m, ms)
    else
      match removeSplit userId ms with
      | none => none
      | some (x, rest) => some (x, m :: rest)

/-- teamSchema.methods.removeMember: error when the userId is not in the
members array; error when the found slot carries the leader flag and the
team has at most one accepted leader; otherwise splice the slot out and
save. -/
def removeMember (t : Team) (userId : Nat) : Team × Option TeamError :=
  match removeSplit userId t.members with
  | none => (t, some TeamError.memberNotFound)
  | some (m, rest) =>
    if m.isLeader = true ∧ acceptedLeadersCount t ≤ 1
    then (t, some TeamError.lastLeader)
    else (teamPreSave { t with members := rest }, none)

/-- Errors thrown by the team controller endpoints. -/
inductive ApiError where
  | invalidId
  | notAuthorizedInvite
  | teamIsFull
  | userNotFound
  | pendingInvitation
  | alreadyMember
  | onlyLeaderRemoves
  | onlyLeaderSelf
  | memberNotFound
  | lastLeader
deriving DecidableEq

/-- Conversion of a schema-method error surfaced through a controller. -/
def teamErrToApi : TeamError → ApiError
  | .teamIsFull => .teamIsFull
  | .memberNotFound => .memberNotFound
  | .lastLeader => .lastLeader

/-- Lift a schema-method result to a controller result. -/
def liftTeamResult (r : Team × Option TeamError) : Team × Option ApiError :=
  (r.1, r.2.map teamErrToApi)

/-- The controller's role defaulting: role || 'Team Member' (JS falsy, so
an empty string also falls back to the default). -/
def roleOrDefault (role? : Option String) : String :=
  match role? with
  | none => "Team Member"
  | some r => if r = "" then "Team Member" else r

/-- First member slot with the given userId, as found by
team.members.find in the invite controller. -/
def findFirstMember (userId : Nat) : List TeamMember → Option TeamMember
  | [] => none
  | m :: ms => if m.userId = userId then some m else findFirstMember userId ms

/-- inviteToTeam controller: validate ids, require the caller to be an
accepted member, reject a full team, require the target user to exist,
reject a pending or accepted existing slot, then run inviteMember.
validIds stands for the ObjectId format check and userExists for the
User.findById lookup. -/
def inviteToTeam (t : Team) (validIds : Bool) (callerId targetId : Nat)
    (userExists : Bool) (role? : Option String) : Team × Option ApiError :=
  if validIds = false then (t, some ApiError.invalidId)
  else if t.isMember callerId = false then (t, some ApiError.notAuthorizedInvite)
  else if t.isFull then (t, some ApiError.teamIsFull)
  else if userExists = false then (t, some ApiError.userNotFound)
  else
    match findFirstMember targetId t.members with
    | some existing =>
      if existing.invitationStatus = InvStatus.pending
      then (t, some ApiError.pendingInvitation)
      else if existing.invitationStatus = InvStatus.accepted
      then (t, some ApiError.alreadyMember)
      else liftTeamResult (inviteMember t targetId (roleOrDefault role?))
    | none => liftTeamResult (inviteMember t targetId (roleOrDefault role?))

/-- removeMember controller: validate ids, require the caller to carry the
leader flag, refuse a sole accepted leader removing themselves, then run
the schema removeMember. -/
def removeMemberEndpoint (t : Team) (validIds : Bool) (callerId memberId : Nat) :
    Team × Option ApiError :=
  if validIds = false then (t, some ApiError.invalidId)
  else if t.isLeader callerId = false then (t, some ApiError.onlyLeaderRemoves)
  else if memberId = callerId ∧ acceptedLeadersCount t ≤ 1
  then (t, some ApiError.onlyLeaderSelf)
  else liftTeamResult (removeMember t memberId)

end SynapseFlow

namespace SynapseFlow

/-! ### Team invitation lifecycle: properties -/

lemma teamPreSave_members (t : Team) : (teamPreSave t).members = t.members := rfl

lemma acceptedCount_teamPreSave (t : Team) :
    acceptedCount (teamPreSave t) = acceptedCount t := rfl

lemma removeSplit_eq (uid : Nat) : ∀ (pre : List TeamMember) (m : TeamMember)
    (post : List TeamMember), (∀ x ∈ pre, x.userId ≠ uid) → m.userId = uid →
    removeSplit uid (pre ++ m :: post) = some (m, pre ++ post) := by
  intro pre
  induction pre with
  | nil =>
    intro m post hpre hm
    simp [removeSplit, hm]
  | cons a pre ih =>
    intro m post hpre hm
    have ha : a.userId ≠ uid := hpre a (List.mem_cons_self _ _)
    have hrec := ih m post (fun x hx => hpre x (List.mem_cons_of_mem _ hx)) hm
    simp [removeSplit, ha, hrec]

/-- C3 (amended): removing the slot of the sole accepted leader fails with
the last-leader error and leaves the team untouched; removing a member
without the leader flag succeeds, deletes exactly that slot, and lowers
the accepted count by one exactly when the removed slot was accepted
(strictly decreasing it in that case), leaving the count unchanged when
the removed slot was pending or rejected. -/
theorem removeMember_leader_guard (t : Team) (uid : Nat) (m : TeamMember)
    (pre post : List TeamMember)
    (hsplit : t.members = pre ++ m :: post)
    (hpre : ∀ x ∈ pre, x.userId ≠ uid)
    (hm : m.userId = uid) :
    (m.isLeader = true → acceptedLeadersCount t ≤ 1 →
        removeMember t uid = (t, some TeamError.lastLeader))
    ∧ (m.isLeader = false →
        (removeMember t uid).2 = none
        ∧ (removeMember t uid).1.members = pre ++ post
        ∧ acceptedCount (removeMember t uid).1
            = acceptedCount t
              - (if m.invitationStatus = InvStatus.accepted then 1 else 0)
        ∧ (m.invitationStatus = InvStatus.accepted →
            acceptedCount (removeMember t uid).1 < acceptedCount t)) := by
  have hrs : removeSplit uid t.members = some (m, pre ++ post) := by
    rw [hsplit]
    exact removeSplit_eq uid pre m post hpre hm
  constructor
  · intro hL hc
    unfold removeMember
    rw [hrs]
    simp [hL, hc]
  · intro hL
    have hcond : ¬(m.isLeader = true ∧ acceptedLeadersCount t ≤ 1) := by simp [hL]
    have hres : removeMember t uid = (teamPreSave { t with members := pre ++ post }, none) := by
      unfold removeMember
      rw [hrs]
      simp [hcond]
    refine ⟨by rw [hres], by rw [hres]; rfl, ?_, ?_⟩
    · rw [hres, acceptedCount_teamPreSave]
      by_cases hacc : m.invitationStatus = InvStatus.accepted
      · simp [acceptedCount, hsplit, List.filter_append, List.filter_cons, hacc]
      · simp [acceptedCount, hsplit, List.filter_append, List.filter_cons, hacc]
    · intro hacc
      rw [hres, acceptedCount_teamPreSave]
      simp [acceptedCount, hsplit, List.filter_append, List.filter_cons, hacc]

/-- A team whose second member is a pending non-leader. -/
def exTeamPending : Team :=
  { members := [⟨1, "Lead", true, some 0, InvStatus.accepted⟩,
                ⟨2, "Dev", false, none, InvStatus.pending⟩],
    maxMembers := 4, isLookingForMembers := true, totalInvitesSent := 1 }

/-- C3 counterexample: removing the pending non-leader member 2 succeeds,
yet the accepted-member count does not decrease (it stays at 1), so a
non-leader removal does not always strictly decrement the accepted
count. -/
theorem removeMember_pending_counterexample :
    (removeMember exTeamPending 2).2 = none
    ∧ acceptedCount (removeMember exTeamPending 2).1 = acceptedCount exTeamPending := by
  exact ⟨rfl, rfl⟩

/-- Witness for C3 at exTeamPending: member 2 found behind one
non-matching slot, removal succeeds and splices out exactly that slot. -/
theorem removeMember_leader_guard_witness :
    (exTeamPending.members
        = [(⟨1, "Lead", true, some 0, InvStatus.accepted⟩ : TeamMember)]
          ++ (⟨2, "Dev", false, none, InvStatus.pending⟩ : TeamMember) :: [])
    ∧ (removeMember exTeamPending 2).2 = none
    ∧ (removeMember exTeamPending 2).1.members
        = [(⟨1, "Lead", true, some 0, InvStatus.accepted⟩ : TeamMember)] ++ [] := by
  refine ⟨rfl, ?_, ?_⟩
  · exact ((removeMember_leader_guard exTeamPending 2
      ⟨2, "Dev", false, none, InvStatus.pending⟩
      [⟨1, "Lead", true, some 0, InvStatus.accepted⟩] [] rfl
      (by intro x hx; simp at hx; simp [hx]) rfl).2 rfl).1
  · exact ((removeMember_leader_guard exTeamPending 2
      ⟨2, "Dev", false, none, InvStatus.pending⟩
      [⟨1, "Lead", true, some 0, InvStatus.accepted⟩] [] rfl
      (by intro x hx; simp at hx; simp [hx]) rfl).2 rfl).2.1

/-- A team at capacity: two accepted members, maxMembers two. -/
def exTeamFull : Team :=
  { members := [⟨1, "Lead", true, some 0, InvStatus.accepted⟩,
                ⟨2, "Dev", false, some 1, InvStatus.accepted⟩],
    maxMembers := 2, isLookingForMembers := false, totalInvitesSent := 2 }

/-- C4: on a team whose accepted count equals maxMembers, the schema
inviteMember always throws 'Team is full' leaving the document untouched,
and the invite endpoint always fails with the members list unchanged;
when the caller passes the earlier checks (valid ids, accepted member)
the endpoint's error is exactly the team-is-full one. -/
theorem inviteFullTeam_fails (t : Team) (uid callerId targetId : Nat) (role : String)
    (validIds userExists : Bool) (role? : Option String)
    (h : acceptedCount t = t.maxMembers) :
    inviteMember t uid role = (t, some TeamError.teamIsFull)
    ∧ TeamError.message TeamError.teamIsFull = "Team is full"
    ∧ (inviteToTeam t validIds callerId targetId userExists role?).1.members = t.members
    ∧ (inviteToTeam t validIds callerId targetId userExists role?).2.isSome = true
    ∧ (validIds = true → t.isMember callerId = true →
        inviteToTeam t validIds callerId targetId userExists role?
          = (t, some ApiError.teamIsFull)) := by
  have hfull : t.isFull = true := by simp [Team.isFull, h]
  refine ⟨by simp [inviteMember, hfull], rfl, ?_, ?_, ?_⟩
  · unfold inviteToTeam
    rcases Bool.eq_false_or_eq_true validIds with hv | hv <;>
      rcases Bool.eq_false_or_eq_true (t.isMember callerId) with hmem | hmem <;>
        simp [hv, hmem, hfull]
  · unfold inviteToTeam
    rcases Bool.eq_false_or_eq_true validIds with hv | hv <;>
      rcases Bool.eq_false_or_eq_true (t.isMember callerId) with hmem | hmem <;>
        simp [hv, hmem, hfull]
  · intro hv hmem
    simp [inviteToTeam, hv, hmem, hfull]

/-- Witness for C4 at the full team exTeamFull. -/
theorem inviteFullTeam_fails_witness :
    acceptedCount exTeamFull = exTeamFull.maxMembers
    ∧ inviteMember exTeamFull 3 "Dev" = (exTeamFull, some TeamError.teamIsFull)
    ∧ inviteToTeam exTeamFull true 1 3 true none = (exTeamFull, some ApiError.teamIsFull) := by
  have h := inviteFullTeam_fails exTeamFull 3 1 3 "Dev" true true none rfl
  exact ⟨rfl, h.1, h.2.2.2.2 rfl rfl⟩

lemma findFirstMember_eq (uid : Nat) : ∀ (pre : List TeamMember) (m : TeamMember)
    (post : List TeamMember), (∀ x ∈ pre, x.userId ≠ uid) → m.userId = uid →
    findFirstMember uid (pre ++ m :: post) = some m := by
  intro pre
  induction pre with
  | nil =>
    intro m post hpre hm
    simp [findFirstMember, hm]
  | cons a pre ih =>
    intro m post hpre hm
    have ha : a.userId ≠ uid := hpre a (List.mem_cons_self _ _)
    have hrec := ih m post (fun x hx => hpre x (List.mem_cons_of_mem _ hx)) hm
    simp [findFirstMember, ha, hrec]

lemma inviteUpd_eq (uid : Nat) (role : String) : ∀ (pre : List TeamMember)
    (m : TeamMember) (post : List TeamMember),
    (∀ x ∈ pre, x.userId ≠ uid) → m.userId = uid →
    m.invitationStatus = InvStatus.rejected →
    inviteUpd uid role (pre ++ m :: post)
      = pre ++ { m with invitationStatus := InvStatus.pending, role := role } :: post := by
  intro pre
  induction pre with
  | nil =>
    intro m post hpre hm hrej
    simp [inviteUpd, hm, hrej]
  | cons a pre ih =>
    intro m post hpre hm hrej
    have ha : a.userId ≠ uid := hpre a (List.mem_cons_self _ _)
    have hrec := ih m post (fun x hx => hpre x (List.mem_cons_of_mem _ hx)) hm hrej
    simp [inviteUpd, ha, hrec]

/-- C5: on a team with a free slot, inviting a target whose (first) member
slot is 'rejected' resets that slot to 'pending' with the new role,
adding no slot (the members length is unchanged), and the invite endpoint
rejects any caller who is not an accepted member of the team. -/
theorem invite_rejected_resets_pending (t : Team) (callerId targetId : Nat)
    (role? : Option String) (m : TeamMember) (pre post : List TeamMember)
    (hfull : t.isFull = false)
    (hsplit : t.members = pre ++ m :: post)
    (hpre : ∀ x ∈ pre, x.userId ≠ targetId)
    (hm : m.userId = targetId)
    (hrej : m.invitationStatus = InvStatus.rejected)
    (hcaller : t.isMember callerId = true) :
    inviteToTeam t true callerId targetId true role?
      = (teamPreSave { t with
            members := pre ++ ({ m with invitationStatus := InvStatus.pending, role := roleOrDefault role? } : TeamMember) :: post,
            totalInvitesSent := t.totalInvitesSent + 1 }, none)
    ∧ (inviteToTeam t true callerId targetId true role?).1.members.length
        = t.members.length
    ∧ (∀ c2, t.isMember c2 = false →
        inviteToTeam t true c2 targetId true role? = (t, some ApiError.notAuthorizedInvite)) := by
  have hfind : findFirstMember targetId t.members = some m := by
    rw [hsplit]
    exact findFirstMember_eq targetId pre m post hpre hm
  have hupd : inviteUpd targetId (roleOrDefault role?) t.members
      = pre ++ ({ m with invitationStatus := InvStatus.pending, role := roleOrDefault role? } : TeamMember) :: post := by
    rw [hsplit]
    exact inviteUpd_eq targetId (roleOrDefault role?) pre m post hpre hm hrej
  have hmain : inviteToTeam t true callerId targetId true role?
      = (teamPreSave { t with
            members := pre ++ ({ m with invitationStatus := InvStatus.pending, role := roleOrDefault role? } : TeamMember) :: post,
            totalInvitesSent := t.totalInvitesSent + 1 }, none) := by
    unfold inviteToTeam
    rw [hfind]
    simp only [hcaller, hfull]
    simp [hrej, inviteMember, hfull, liftTeamResult, hupd]
  refine ⟨hmain, ?_, ?_⟩
  · rw [hmain, teamPreSave_members, hsplit]
    simp
  · intro c2 hc2
    simp [inviteToTeam, hc2]

/-- A team with a free slot whose member 2 previously rejected an
invitation. -/
def exTeamRejected : Team :=
  { members := [⟨1, "Lead", true, some 0, InvStatus.accepted⟩,
                ⟨2, "Old", false, none, InvStatus.rejected⟩],
    maxMembers := 4, isLookingForMembers := true, totalInvitesSent := 3 }

/-- Witness for C5: re-inviting rejected member 2 on exTeamRejected resets
the slot to pending with the default role. -/
theorem invite_rejected_resets_pending_witness :
    exTeamRejected.isFull = false
    ∧ exTeamRejected.isMember 1 = true
    ∧ inviteToTeam exTeamRejected true 1 2 true none
        = (teamPreSave { exTeamRejected with
              members := [⟨1, "Lead", true, some 0, InvStatus.accepted⟩]
                ++ (⟨2, "Team Member", false, none, InvStatus.pending⟩ : TeamMember) :: [],
              totalInvitesSent := exTeamRejected.totalInvitesSent + 1 }, none) := by
  refine ⟨rfl, rfl, ?_⟩
  exact (invite_rejected_resets_pending exTeamRejected 1 2 none
    ⟨2, "Old", false, none, InvStatus.rejected⟩
    [⟨1, "Lead", true, some 0, InvStatus.accepted⟩] [] rfl rfl
    (by intro x hx; simp at hx; simp [hx]) rfl rfl rfl).1

end SynapseFlow

namespace SynapseFlow

/-! ## Project model (status enum, submission date) -/

/-- One member of the project's embedded team array. -/
structure ProjTeamMember where
  userId : Nat
  role : String
  contribution : String
  joinedAt : Option Nat
deriving DecidableEq

/-- The fields of a Project document used by submission. -/
structure Project where
  title : String
  status : String
  submissionDate : Option Nat
  submissionNotes : String
  repoUrl : String
  videoUrl : String
  screenshots : List String
  team : List ProjTeamMember
  teamSize : Nat
deriving DecidableEq

/-- The status enum of the project schema:
enum: ['draft', 'in_progress', 'submitted', 'under_review', 'selected',
'winner', 'completed']. -/
def projectStatusValues : List String :=
  ["draft", "in_progress", "submitted", "under_review", "selected", "winner", "completed"]

/-- Mongoose enum validation of the status path. -/
def validProjectStatus (s : String) : Bool :=
  projectStatusValues.contains s

/-- projectSchema.methods.isTeamMember: the userId is in the project's
embedded team array (any invitation state; the array has none). -/
def Project.isTeamMember (p : Project) (userId : Nat) : Bool :=
  p.team.any (fun m => decide (m.userId = userId))

/-- projectSchema.pre('save'): refresh teamSize when the team array was
modified, and stamp submissionDate when the status was modified to
'submitted' and no submissionDate is set yet (slug generation does not
touch the fields modelled here). -/
def projectPreSave (p : Project) (teamModified statusModified : Bool) (now : Nat) :
    Project :=
  let p1 := if teamModified = true then { p with teamSize := p.team.length } else p
  if statusModified = true ∧ p1.status = "submitted" ∧ p1.submissionDate = none
  then { p1 with submissionDate := some now } else p1

/-- Saving a project: mongoose enum validation of status, then the
pre-save middleware. -/
def projectSave (p : Project) (teamModified statusModified : Bool) (now : Nat) :
    Except String Project :=
  if validProjectStatus p.status
  then Except.ok (projectPreSave p teamModified statusModified now)
  else Except.error "ValidationError"

/-- Errors thrown by the submitProject controller. -/
inductive ProjectApiError where
  | invalidId
  | notAuthorizedSubmit
  | repoRequired
  | videoRequired
  | screenshotRequired
deriving DecidableEq

/-- submitProject controller: validate the id, require a team member
caller, require repoUrl, videoUrl and at least one screenshot, then set
status to 'submitted', set submissionDate to the current date, and save
(mongoose marks status modified only when its value changed). -/
def submitProject (p : Project) (validId : Bool) (callerId : Nat) (now : Nat) :
    Project × Option ProjectApiError :=
  if validId = false then (p, some ProjectApiError.invalidId)
  else if p.isTeamMember callerId = false then (p, some ProjectApiError.notAuthorizedSubmit)
  else if p.repoUrl = "" then (p, some ProjectApiError.repoRequired)
  else if p.videoUrl = "" then (p, some ProjectApiError.videoRequired)
  else if p.screenshots.length = 0 then (p, some ProjectApiError.screenshotRequired)
  else
    let statusModified := decide (p.status ≠ "submitted")
    let p1 := { p with status := "submitted", submissionDate := some now }
    (projectPreSave p1 false statusModified now, none)

/-- A project already submitted at time 100, satisfying every submission
requirement, with user 7 on the team. -/
def exProjectSubmitted : Project :=
  { title := "Proj"
    status := "submitted"
    submissionDate := some 100
    submissionNotes := ""
    repoUrl := "https:repo"
    videoUrl := "https:video"
    screenshots := ["shot1"]
    team := [⟨7, "Lead", "", some 0⟩]
    teamSize := 1 }

/-- C2 (code bug): a repeated submit-project call on an already submitted
project overwrites submissionDate (here from 100 to 200), although the
model's own pre-save middleware guards the stamp with submissionDate
being unset; a plain save of the same project (even with the status path
marked modified) leaves submissionDate unchanged. -/
theorem submitProject_overwrites_submissionDate :
    exProjectSubmitted.submissionDate = some 100
    ∧ (submitProject exProjectSubmitted true 7 200).2 = none
    ∧ (submitProject exProjectSubmitted true 7 200).1.submissionDate = some 200
    ∧ projectPreSave exProjectSubmitted false true 200 = exProjectSubmitted
    ∧ projectSave exProjectSubmitted false true 200 = Except.ok exProjectSubmitted := by
  refine ⟨rfl, rfl, rfl, rfl, rfl⟩

/-- A project whose status is the string 'rejected'. -/
def exProjectRejected : Project :=
  { exProjectSubmitted with status := "rejected" }

/-- C7 counterexample: 'rejected' is not among the schema's status enum
values, so a save with status 'rejected' fails validation instead of
being accepted. -/
theorem projectStatus_rejected_counterexample :
    validProjectStatus "rejected" = false
    ∧ projectSave exProjectRejected false true 0 = Except.error "ValidationError" := by
  exact ⟨rfl, rfl⟩

/-- C7 (amended): the project status enum admits exactly draft,
in_progress, submitted, under_review, selected, winner and completed;
'rejected' is not a member, and a save with status 'rejected' fails
schema validation while a save with any enum value passes it. -/
theorem projectStatus_enum_spec :
    projectStatusValues
      = ["draft", "in_progress", "submitted", "under_review", "selected", "winner",
         "completed"]
    ∧ (∀ s, validProjectStatus s = true ↔ s ∈ projectStatusValues)
    ∧ validProjectStatus "rejected" = false
    ∧ (∀ (p : Project) (tm sm : Bool) (now : Nat), p.status = "rejected" →
        projectSave p tm sm now = Except.error "ValidationError")
    ∧ (∀ (p : Project) (tm sm : Bool) (now : Nat), p.status ∈ projectStatusValues →
        projectSave p tm sm now = Except.ok (projectPreSave p tm sm now)) := by
  refine ⟨rfl, ?_, rfl, ?_, ?_⟩
  · intro s
    simp [validProjectStatus, List.contains_iff_exists_mem_beq, eq_comm]
  · intro p tm sm now hs
    have : validProjectStatus p.status = false := by rw [hs]; rfl
    simp [projectSave, this]
  · intro p tm sm now hs
    have : validProjectStatus p.status = true := by
      simpa [validProjectStatus] using hs
    simp [projectSave, this]

/-- Witness for C7: saving a project whose status is the enum value
'submitted' passes validation. -/
theorem projectStatus_enum_spec_witness :
    exProjectSubmitted.status ∈ projectStatusValues
    ∧ projectSave exProjectSubmitted false false 0
        = Except.ok (projectPreSave exProjectSubmitted false false 0) := by
  refine ⟨by simp [exProjectSubmitted, projectStatusValues], ?_⟩
  exact (projectStatus_enum_spec).2.2.2.2 exProjectSubmitted false false 0
    (by simp [exProjectSubmitted, projectStatusValues])

end SynapseFlow

namespace SynapseFlow

/-! ## Authentication: login -/

/-- The fields of a User document used by login. -/
structure Account where
  userId : Nat
  email : String
  name : String
  isActive : Bool
  lastLogin : Option Nat
deriving DecidableEq

/-- Errors thrown by the login controller. -/
inductive AuthError where
  | missingCredentials
  | invalidCredentials
  | accountDeactivated
deriving DecidableEq

/-- The successful login response: a token for the user id and the user. -/
structure LoginResult where
  token : Nat
  user : Account
deriving DecidableEq

/-- login controller: require both fields, look the user up by email
(lookup models User.findOne), refuse a deactivated account before the
password is even compared (passwordMatches models comparePassword),
refuse a wrong password, then stamp lastLogin and issue a token for the
user's id. -/
def login (email password : String) (lookup : Option Account) (passwordMatches : Bool)
    (now : Nat) : Except AuthError LoginResult :=
  if email = "" ∨ password = "" then Except.error AuthError.missingCredentials
  else
    match lookup with
    | none => Except.error AuthError.invalidCredentials
    | some user =>
      if user.isActive = false then Except.error AuthError.accountDeactivated
      else if passwordMatches = false then Except.error AuthError.invalidCredentials
      else Except.ok { token := user.userId, user := { user with lastLogin := some now } }

/-- C8: login on an account with isActive = false always fails — even with
a matching password — so no token is ever issued for a deactivated
account; with both credential fields present the error is precisely the
account-deactivated one. -/
theorem login_inactive_fails (email password : String) (a : Account)
    (passwordMatches : Bool) (now : Nat) (h : a.isActive = false) :
    (∀ r : LoginResult, login email password (some a) passwordMatches now ≠ Except.ok r)
    ∧ (email ≠ "" → password ≠ "" →
        login email password (some a) passwordMatches now
          = Except.error AuthError.accountDeactivated) := by
  constructor
  · intro r
    by_cases hempty : email = "" ∨ password = ""
    · simp [login, hempty]
    · simp [login, hempty, h]
  · intro he hp
    have hempty : ¬(email = "" ∨ password = "") := by simp [he, hp]
    simp [login, hempty, h]

/-- A deactivated account (as produced by the soft-deleting
deleteAccount handler). -/
def exDeletedAccount : Account :=
  { userId := 42, email := "deleted_999_user@mail.test", name := "U",
    isActive := false, lastLogin := some 3 }

/-- Witness for C8: a deactivated account with a matching password still
gets the account-deactivated error. -/
theorem login_inactive_fails_witness :
    exDeletedAccount.isActive = false
    ∧ login "user@mail.test" "hunter22" (some exDeletedAccount) true 7
        = Except.error AuthError.accountDeactivated := by
  refine ⟨rfl, ?_⟩
  exact (login_inactive_fails "user@mail.test" "hunter22" exDeletedAccount true 7 rfl).2
    (by simp) (by simp)

end SynapseFlow

namespace SynapseFlow

/-! ## Leaderboard -/

/-- The status filter of getLeaderboard:
.where('status').in(['accepted', 'winner', 'runner_up', 'honorable_mention']). -/
def leaderboardStatusValues : List SubStatus :=
  [SubStatus.accepted, SubStatus.winner, SubStatus.runner_up, SubStatus.honorable_mention]

/-- Ascending comparison on submittedAt; a missing date sorts first, as a
null does in the backing store. -/
def submittedAtLe : Option Nat → Option Nat → Bool
  | none, _ => true
  | some _, none => false
  | some a, some b => decide (a ≤ b)

/-- The sort key of getLeaderboard: totalScore descending, ties broken by
submittedAt ascending (.sort with totalScore -1, submittedAt 1). -/
def leaderboardLe (a b : Submission) : Bool :=
  if a.totalScore = b.totalScore then submittedAtLe a.submittedAt b.submittedAt
  else decide (b.totalScore < a.totalScore)

/-- submissionSchema.statics.getLeaderboard: filter by hackathon and by
the accepted/winner/runner_up/honorable_mention statuses, sort by the
leaderboard key, and truncate to the limit (default 20). -/
def getLeaderboard (subs : List Submission) (hackathonId : Nat) (limit : Nat := 20) :
    List Submission :=
  (((subs.filter (fun s => decide (s.hackathonId = hackathonId))).filter
      (fun s => leaderboardStatusValues.contains s.status)).mergeSort leaderboardLe).take limit

lemma submittedAtLe_total (a b : Option Nat) :
    (submittedAtLe a b || submittedAtLe b a) = true := by
  rcases a with _ | a <;> rcases b with _ | b <;> simp [submittedAtLe]
  omega

lemma submittedAtLe_trans (a b c : Option Nat) (h1 : submittedAtLe a b = true)
    (h2 : submittedAtLe b c = true) : submittedAtLe a c = true := by
  rcases a with _ | a <;> rcases b with _ | b <;> rcases c with _ | c <;>
    simp [submittedAtLe] at *
  all_goals omega

lemma leaderboardLe_total (a b : Submission) :
    (leaderboardLe a b || leaderboardLe b a) = true := by
  unfold leaderboardLe
  by_cases h : a.totalScore = b.totalScore
  · simp [h, submittedAtLe_total]
  · have hne : b.totalScore ≠ a.totalScore := fun hh => h hh.symm
    rcases lt_or_gt_of_ne h with hlt | hgt
    · simp [h, hne, hlt]
    · simp [h, hne, hgt]

lemma leaderboardLe_trans (a b c : Submission) (h1 : leaderboardLe a b = true)
    (h2 : leaderboardLe b c = true) : leaderboardLe a c = true := by
  unfold leaderboardLe at *
  by_cases hab : a.totalScore = b.totalScore <;> by_cases hbc : b.totalScore = c.totalScore
  · have hac : a.totalScore = c.totalScore := hab.trans hbc
    rw [if_pos hab] at h1
    rw [if_pos hbc] at h2
    rw [if_pos hac]
    exact submittedAtLe_trans _ _ _ h1 h2
  · rw [if_neg hbc] at h2
    have hcb : c.totalScore < b.totalScore := by simpa using h2
    have hac : a.totalScore ≠ c.totalScore := by
      rw [hab]
      exact fun hh => absurd hh.symm (ne_of_lt hcb)
    rw [if_neg hac]
    simp [hab ▸ hcb]
  · rw [if_neg hab] at h1
    have hba : b.totalScore < a.totalScore := by simpa using h1
    have hac : a.totalScore ≠ c.totalScore := by
      rw [← hbc]
      exact fun hh => absurd hh (ne_of_gt hba)
    rw [if_neg hac]
    simp [hbc ▸ hba]
  · rw [if_neg hab] at h1
    rw [if_neg hbc] at h2
    have hba : b.totalScore < a.totalScore := by simpa using h1
    have hcb : c.totalScore < b.totalScore := by simpa using h2
    have hca : c.totalScore < a.totalScore := hcb.trans hba
    have hac : a.totalScore ≠ c.totalScore := fun hh => absurd hh.symm (ne_of_lt hca)
    rw [if_neg hac]
    simpa using hca

/-- C10: the leaderboard holds only submissions of the given hackathon
whose status is accepted, winner, runner_up or honorable_mention (never
'submitted' or 'under_review'), is ordered by totalScore descending with
ties broken by earlier submittedAt, is truncated to the limit, and the
limit defaults to 20. -/
theorem getLeaderboard_spec (subs : List Submission) (hid limit : Nat) :
    (∀ s ∈ getLeaderboard subs hid limit,
        s ∈ subs ∧ s.hackathonId = hid ∧ s.status ∈ leaderboardStatusValues
        ∧ s.status ≠ SubStatus.submitted ∧ s.status ≠ SubStatus.under_review)
    ∧ (getLeaderboard subs hid limit).length ≤ limit
    ∧ (getLeaderboard subs hid limit).Pairwise (fun a b => leaderboardLe a b = true)
    ∧ getLeaderboard subs hid = getLeaderboard subs hid 20 := by
  refine ⟨?_, ?_, ?_, rfl⟩
  · intro s hs
    have hs2 : s ∈ ((subs.filter (fun s => decide (s.hackathonId = hid))).filter
        (fun s => leaderboardStatusValues.contains s.status)).mergeSort leaderboardLe :=
      List.mem_of_mem_take hs
    have hs3 : s ∈ (subs.filter (fun s => decide (s.hackathonId = hid))).filter
        (fun s => leaderboardStatusValues.contains s.status) :=
      (List.mergeSort_perm _ leaderboardLe).mem_iff.mp hs2
    have hs4 := List.of_mem_filter hs3
    have hs5 : s ∈ subs.filter (fun s => decide (s.hackathonId = hid)) :=
      List.mem_of_mem_filter hs3
    have hs6 := List.of_mem_filter hs5
    have hs7 : s ∈ subs := List.mem_of_mem_filter hs5
    have hhid : s.hackathonId = hid := by simpa using hs6
    have hstat : s.status ∈ leaderboardStatusValues := by simpa using hs4
    refine ⟨hs7, hhid, hstat, ?_, ?_⟩
    · intro hc
      rw [hc] at hstat
      simp [leaderboardStatusValues] at hstat
    · intro hc
      rw [hc] at hstat
      simp [leaderboardStatusValues] at hstat
  · exact List.length_take_le _ _
  · have hsorted := @List.sorted_mergeSort _ leaderboardLe
      (fun a b c => leaderboardLe_trans a b c)
      (fun a b => leaderboardLe_total a b)
      ((subs.filter (fun s => decide (s.hackathonId = hid))).filter
        (fun s => leaderboardStatusValues.contains s.status))
    exact List.Pairwise.sublist (List.take_sublist _ _) hsorted

/-- A submission fixture with the given hackathon, status, total score and
submission time. -/
def mkSub (hid : Nat) (st : SubStatus) (total : ℚ) (subAt : Option Nat) : Submission :=
  { hackathonId := hid, status := st, judges := [], scores := ⟨0, 0, 0, 0, 0⟩,
    totalScore := total, averageScore := 0, submittedAt := subAt, reviewedAt := none }

/-- Three submissions, of which only the first passes both leaderboard
filters (the second is merely 'submitted', the third belongs to another
hackathon). -/
def exSubsW : List Submission :=
  [mkSub 1 SubStatus.accepted 10 (some 5), mkSub 1 SubStatus.submitted 50 (some 1),
   mkSub 2 SubStatus.winner 8 (some 2)]

/-- Witness for C10 on exSubsW: the accepted submission appears on the
leaderboard with all the claimed properties and the result respects the
limit. -/
theorem getLeaderboard_spec_witness :
    (mkSub 1 SubStatus.accepted 10 (some 5) ∈ exSubsW
      ∧ (mkSub 1 SubStatus.accepted 10 (some 5)).hackathonId = 1
      ∧ (mkSub 1 SubStatus.accepted 10 (some 5)).status ∈ leaderboardStatusValues
      ∧ (mkSub 1 SubStatus.accepted 10 (some 5)).status ≠ SubStatus.submitted
      ∧ (mkSub 1 SubStatus.accepted 10 (some 5)).status ≠ SubStatus.under_review)
    ∧ (getLeaderboard exSubsW 1 2).length ≤ 2 := by
  have hEq : getLeaderboard exSubsW 1 2 = [mkSub 1 SubStatus.accepted 10 (some 5)] := by
    simp [getLeaderboard, exSubsW, List.mergeSort, mkSub, leaderboardStatusValues]
  have hmem : mkSub 1 SubStatus.accepted 10 (some 5) ∈ getLeaderboard exSubsW 1 2 := by
    rw [hEq]
    exact List.mem_singleton_self _
  exact ⟨(getLeaderboard_spec exSubsW 1 2).1 _ hmem, (getLeaderboard_spec exSubsW 1 2).2.1⟩

end SynapseFlow
